import Mathlib

/-
Verification of the workflow registry of template-api.

The registry (app/services/workflow_service.py) keeps an in-memory map from
workflow id to a loaded entry function, backed by a directory-per-workflow
filesystem layout holding code files, a package marker and a metadata.json
document.  The HTTP layer (app/api/endpoints/workflows.py) wraps the registry.

Shallow embedding choices:
  * the filesystem is an association list from workflow id to `WorkflowDir`;
  * dynamic loading of a directory's main.py is modelled by the directory's
    `entry : LoadOutcome` field, which records whether importlib would yield
    no spec, raise during exec_module, produce a module without `run_graph`,
    or succeed with a given entry function;
  * an entry function takes the inputs mapping and either returns a JSON-like
    `Value` or raises, modelled as `Except String Value` (the `String` is the
    Python exception text `str(e)`);
  * timestamps (`datetime.now().isoformat()`) are passed in as a `now` string;
  * `logger.error` / `logger.warning` calls relevant to listing are recorded
    as a trace of `(LogLevel, workflow_id)` pairs.
-/

namespace TemplateApi

/-- JSON-like values exchanged with workflow entry functions. -/
inductive Value where
  | null
  | bool (b : Bool)
  | int (n : Int)
  | str (s : String)
  | list (xs : List Value)
  | dict (kvs : List (String × Value))

/-- Whether a value is a Python mapping, i.e. `isinstance(result, dict)`. -/
def Value.isDict : Value → Bool
  | .dict _ => true
  | _ => false

/-- Lookup in an association list with string keys (first match wins, as in a
Python dict, which never holds duplicate keys). -/
def lookupA {β : Type} : List (String × β) → String → Option β
  | [], _ => none
  | (k', v) :: t, k => if k' = k then some v else lookupA t k

/-- Assignment `d[k] = v` on a Python dict: an existing key keeps its position
and gets the new value, a fresh key is appended at the end. -/
def insertA {β : Type} : List (String × β) → String → β → List (String × β)
  | [], k, v => [(k, v)]
  | (k', v') :: t, k, v =>
    if k' = k then (k, v) :: t else (k', v') :: insertA t k v

/-- Removal `del d[k]` on a Python dict (removes every pairing of `k`). -/
def eraseA {β : Type} : List (String × β) → String → List (String × β)
  | [], _ => []
  | (k', v) :: t, k => if k' = k then eraseA t k else (k', v) :: eraseA t k

/-- Contents of metadata.json inside a workflow directory, as written by
`register_workflow`. -/
structure Metadata where
  workflow_id : String
  name : String
  created_at : String
deriving DecidableEq

/-- State of the metadata.json file of a workflow directory: missing,
present but not valid JSON (json.load raises), or a parsed document. -/
inductive MetaFile where
  | absent
  | invalid
  | valid (m : Metadata)
deriving DecidableEq

/-- Outcome of dynamically loading a directory's main.py, covering each branch
of `load_workflow`: `spec_from_file_location` yields no usable spec/loader;
`exec_module` raises (this includes a missing or uncompilable main.py); the
module loads but lacks a `run_graph` attribute; or loading succeeds and
exposes the entry function. -/
inductive LoadOutcome where
  | specNone
  | raises (msg : String)
  | noRunGraph
  | ok (f : Value → Except String Value)

/-- One workflow directory on disk: the code files written into it, whether
the package marker `__init__.py` is present, the metadata.json state, and the
load semantics of its entry-point file. -/
structure WorkflowDir where
  files : List (String × String)
  hasInit : Bool
  meta : MetaFile
  entry : LoadOutcome

/-- One value of the in-memory `self.workflows` map: the bound entry function
`run_func` (the module reference is subsumed by it) and the `loaded_at`
timestamp stamped at load time. -/
structure LoadedWorkflow where
  run_func : Value → Except String Value
  loaded_at : String

/-- State of the `WorkflowRegistry`: the workflows directory tree on disk and
the in-memory map from workflow id to loaded workflow. -/
structure RegistryState where
  fs : List (String × WorkflowDir)
  workflows : List (String × LoadedWorkflow)

/-- Severity of a recorded log call. -/
inductive LogLevel where
  | error
  | warning
  | info
deriving DecidableEq

/-- A recorded log call: its level and the workflow id it concerns. -/
abbrev LogEntry := LogLevel × String

/-- The two failures `execute_workflow` signals; both are raised as a Python
`ValueError`, differing only in message. -/
inductive ExecError where
  | notFound (wid : String)
  | execError (msg : String)
deriving DecidableEq

/-- The message `str(e)` of the raised ValueError. -/
def ExecError.message : ExecError → String
  | .notFound wid => "Workflow not found: " ++ wid
  | .execError msg => "Error executing workflow: " ++ msg

/-- Embedding of `WorkflowRegistry.load_workflow`.  Returns the success
boolean and the updated registry state.  Every failure branch (missing
directory, unusable import spec, exception while executing the module, missing
`run_graph` symbol) returns `false` and leaves the state untouched; success
binds the entry function, stamps `loaded_at := now` and (re)inserts the entry
into the map. -/
def load_workflow (st : RegistryState) (now : String) (wid : String) :
    Bool × RegistryState :=
  match lookupA st.fs wid with
  | none => (false, st)
  | some dir =>
    match dir.entry with
    | .specNone => (false, st)
    | .raises _ => (false, st)
    | .noRunGraph => (false, st)
    | .ok f =>
      (true, { st with workflows := insertA st.workflows wid ⟨f, now⟩ })

/-- The directory contents `register_workflow` leaves on disk for `wid`:
the code files written over whatever files the directory already held
(creating it if absent), the package marker, and the fresh metadata document
`{workflow_id, name, created_at}`.  The effect of compiling the written
entry-point file is supplied as the `sem : LoadOutcome` argument, since the
embedding cannot interpret Python source text. -/
def writtenDir (st : RegistryState) (now : String) (wid : String)
    (nm : String) (code_files : List (String × String)) (sem : LoadOutcome) :
    WorkflowDir :=
  let oldFiles : List (String × String) :=
    match lookupA st.fs wid with
    | some d => d.files
    | none => []
  { files := code_files.foldl (fun a p => insertA a p.1 p.2) oldFiles,
    hasInit := true, meta := .valid ⟨wid, nm, now⟩, entry := sem }

/-- Embedding of `WorkflowRegistry.register_workflow`.  Creates the directory
if needed, writes each code file (overwriting files of the same name), writes
the package marker and the metadata document, then returns
`load_workflow wid` on the resulting state. -/
def register_workflow (st : RegistryState) (now : String) (wid : String)
    (nm : String) (code_files : List (String × String)) (sem : LoadOutcome) :
    Bool × RegistryState :=
  load_workflow
    { st with fs := insertA st.fs wid (writtenDir st now wid nm code_files sem) }
    now wid

/-- The body of the `try` block of `execute_workflow` once the workflow is
known to be in the map: call `run_func(inputs)`; a raised exception is caught
and re-raised as `ValueError("Error executing workflow: " + str(e))`.  The
`none` branch is unreachable at every call site (the caller just checked or
established membership). -/
def runLoaded (st : RegistryState) (wid : String) (inputs : Value) :
    Except ExecError Value × RegistryState :=
  match lookupA st.workflows wid with
  | some lw =>
    match lw.run_func inputs with
    | .ok v => (.ok v, st)
    | .error msg => (.error (.execError msg), st)
  | none => (.error (.notFound wid), st)

/-- Embedding of `WorkflowRegistry.execute_workflow`.  If the id is not in the
map, attempt a lazy `load_workflow`; if that fails raise
`ValueError("Workflow not found: " + wid)`, modelled as `.error (.notFound
wid)`.  Otherwise invoke the bound entry function. -/
def execute_workflow (st : RegistryState) (now : String) (wid : String)
    (inputs : Value) : Except ExecError Value × RegistryState :=
  match lookupA st.workflows wid with
  | some _ => runLoaded st wid inputs
  | none =>
    match load_workflow st now wid with
    | (true, st1) => runLoaded st1 wid inputs
    | (false, st1) => (.error (.notFound wid), st1)

/-- The metadata.json state reachable for a workflow id: `.absent` when the
directory itself does not exist (so `os.path.exists(metadata_path)` is false)
or when the file is missing from an existing directory. -/
def metaDoc (fs : List (String × WorkflowDir)) (wid : String) : MetaFile :=
  match lookupA fs wid with
  | none => .absent
  | some d => d.meta

/-- The loop of `get_all_workflows` over the entries of `self.workflows`: a
missing metadata.json is skipped with no log call; an unparsable one makes
`json.load` raise, which is caught and logged via `logger.error`; a valid one
is appended to the result list. -/
def listAll (fs : List (String × WorkflowDir)) :
    List (String × LoadedWorkflow) → List Metadata × List LogEntry
  | [] => ([], [])
  | (wid, _) :: t =>
    let r := listAll fs t
    match metaDoc fs wid with
    | .absent => r
    | .invalid => (r.1, (LogLevel.error, wid) :: r.2)
    | .valid m => (m :: r.1, r.2)

/-- Embedding of `WorkflowRegistry.get_all_workflows`, returning both the
metadata list and the trace of log calls the loop makes. -/
def get_all_workflows (st : RegistryState) : List Metadata × List LogEntry :=
  listAll st.fs st.workflows

/-- Embedding of `WorkflowRegistry.get_workflow_metadata`: read metadata.json
directly from disk; return `none` when the file does not exist or json.load
raises (the exception is caught). -/
def get_workflow_metadata (st : RegistryState) (wid : String) :
    Option Metadata :=
  match metaDoc st.fs wid with
  | .valid m => some m
  | _ => none

/-- Embedding of `WorkflowRegistry.delete_workflow`: fail with `false` when
the directory does not exist; otherwise remove the in-memory entry if present,
recursively delete the directory, and return `true`. -/
def delete_workflow (st : RegistryState) (wid : String) :
    Bool × RegistryState :=
  match lookupA st.fs wid with
  | none => (false, st)
  | some _ =>
    (true, { st with workflows := eraseA st.workflows wid,
                     fs := eraseA st.fs wid })

/-- HTTP outcome of the POST /workflows/execute handler. -/
inductive ExecHttpResponse where
  | ok (body : Value)
  | notFound (detail : String)
  | serverError (detail : String)

/-- Normalization the handler applies to a successful service result: a dict
gets `result["workflow_id"] = request.workflow_id` and, when the key is
absent, `result["node_results"] = []`; any non-dict value is wrapped into the
canonical envelope. -/
def normalizeOk (wid : String) (result : Value) : Value :=
  match result with
  | .dict kvs =>
    let kvs1 := insertA kvs "workflow_id" (.str wid)
    match lookupA kvs1 "node_results" with
    | some _ => .dict kvs1
    | none => .dict (insertA kvs1 "node_results" (.list []))
  | v => .dict [("workflow_id", .str wid), ("status", .str "completed"),
                ("node_results", .list []), ("result", v)]

/-- Embedding of the `execute_workflow` endpoint handler in
app/api/endpoints/workflows.py: call the service, normalize a successful
result, and turn a failure into an HTTP response.  Both failures the service
raises are `ValueError`s, so both are caught by the handler's
`except ValueError` clause and turned into HTTP 404 with `detail=str(e)`;
the `except Exception` clause producing HTTP 500 never fires for them. -/
def executeEndpoint (st : RegistryState) (now : String) (wid : String)
    (inputs : Value) : ExecHttpResponse × RegistryState :=
  match execute_workflow st now wid inputs with
  | (.ok result, st1) => (.ok (normalizeOk wid result), st1)
  | (.error e, st1) => (.notFound e.message, st1)

/-- Entry function of a sample workflow returning the bare value 42. -/
def f42 : Value → Except String Value := fun _ => .ok (.int 42)

/-- Sample loaded workflow returning the bare value 42. -/
def wfConst42 : LoadedWorkflow := ⟨f42, "t0"⟩

/-- Sample loaded workflow returning the mapping containing status done and
omitting node_results. -/
def wfDone : LoadedWorkflow :=
  ⟨fun _ => .ok (.dict [("status", .str "done")]), "t0"⟩

/-- Sample loaded workflow whose entry function raises with message boom. -/
def wfBoom : LoadedWorkflow := ⟨fun _ => .error "boom", "t0"⟩

/-- Sample metadata document for workflow id a. -/
def mA : Metadata := ⟨"a", "Alpha", "t0"⟩

/-- Sample directory whose main.py loads but lacks run_graph. -/
def dirNoRun : WorkflowDir :=
  ⟨[("main.py", "x = 1")], true, .valid ⟨"w", "W", "t0"⟩, .noRunGraph⟩

/-- Sample directory whose main.py loads and exposes run_graph. -/
def dirOk : WorkflowDir :=
  ⟨[("main.py", "def run_graph(inputs): return 42")], true,
   .valid ⟨"w", "W", "t0"⟩, .ok f42⟩

/-- Sample directory for id a with a valid metadata document. -/
def dirMetaA : WorkflowDir := ⟨[], true, .valid mA, .ok f42⟩

/-- Sample directory whose metadata.json exists but is not parsable JSON. -/
def dirMetaBad : WorkflowDir := ⟨[], true, .invalid, .ok f42⟩

/-- Registry state with nothing on disk and nothing loaded. -/
def stEmpty : RegistryState := ⟨[], []⟩

/-- Registry state with a loaded workflow w that raises, and no directory. -/
def stBoom : RegistryState := ⟨[], [("w", wfBoom)]⟩

/-- Registry state with a loaded workflow w returning a bare value, and no
directory on disk. -/
def stConst : RegistryState := ⟨[], [("w", wfConst42)]⟩

/-- Registry state with a loaded workflow w returning a mapping. -/
def stDone : RegistryState := ⟨[], [("w", wfDone)]⟩

/-- Registry state with a directory for w whose module lacks run_graph. -/
def stNoRun : RegistryState := ⟨[("w", dirNoRun)], [("w", wfConst42)]⟩

/-- Registry state with a loadable directory for w, not yet loaded. -/
def stOkDir : RegistryState := ⟨[("w", dirOk)], []⟩

/-- Registry state with a directory for a holding valid metadata. -/
def stMetaA : RegistryState := ⟨[("a", dirMetaA)], [("a", wfConst42)]⟩

/-- Registry state where id a is loaded in memory but its metadata document
is missing from disk (nothing on disk at all). -/
def stNoMeta : RegistryState := ⟨[], [("a", wfConst42)]⟩

/-- Registry state where id a is loaded and its metadata.json is unparsable. -/
def stBadMeta : RegistryState := ⟨[("a", dirMetaBad)], [("a", wfConst42)]⟩

/-- Registry state exercising all three listing cases at once: a has valid
metadata, b has an unparsable document, c has none. -/
def stListing : RegistryState :=
  ⟨[("a", dirMetaA), ("b", dirMetaBad)],
   [("a", wfConst42), ("b", wfDone), ("c", wfBoom)]⟩

/-- Lookup after inserting the same key finds the inserted value. -/
theorem lookupA_insertA_self {β : Type} (l : List (String × β)) (k : String)
    (v : β) : lookupA (insertA l k v) k = some v := by
  induction l with
  | nil => simp [insertA, lookupA]
  | cons p t ih =>
    obtain ⟨k', v'⟩ := p
    by_cases hk : k' = k <;> simp [insertA, lookupA, hk, ih]

/-- Lookup at a different key is unaffected by an insertion. -/
theorem lookupA_insertA_ne {β : Type} (l : List (String × β)) (k k' : String)
    (v : β) (h : k' ≠ k) : lookupA (insertA l k v) k' = lookupA l k' := by
  have h2 : ¬ k = k' := fun he => h he.symm
  induction l with
  | nil => simp [insertA, lookupA, h2]
  | cons p t ih =>
    obtain ⟨k'', v''⟩ := p
    by_cases hk : k'' = k
    · subst hk
      simp [insertA, lookupA, h2]
    · by_cases hk2 : k'' = k' <;> simp [insertA, lookupA, hk, hk2, ih, h]

/-- Lookup after erasing the same key yields nothing. -/
theorem lookupA_eraseA_self {β : Type} (l : List (String × β)) (k : String) :
    lookupA (eraseA l k) k = none := by
  induction l with
  | nil => simp [eraseA, lookupA]
  | cons p t ih =>
    obtain ⟨k', v'⟩ := p
    by_cases hk : k' = k <;> simp [eraseA, lookupA, hk, ih]

/-- Folding file writes over an accumulator does not disturb a filename that
none of the writes touches. -/
theorem lookupA_foldl_insertA_not_mem {β : Type} (l : List (String × β))
    (acc : List (String × β)) (k : String) (h : k ∉ l.map Prod.fst) :
    lookupA (l.foldl (fun a p => insertA a p.1 p.2) acc) k = lookupA acc k := by
  induction l generalizing acc with
  | nil => rfl
  | cons p t ih =>
    obtain ⟨k', v'⟩ := p
    simp only [List.map_cons, List.mem_cons] at h
    push_neg at h
    simp only [List.foldl_cons]
    rw [ih _ h.2]
    exact lookupA_insertA_ne acc k' k v' h.1

/-- Folding file writes with pairwise-distinct filenames makes each written
file retrievable with its own content. -/
theorem lookupA_foldl_insertA_mem {β : Type} (l : List (String × β))
    (acc : List (String × β)) (k : String) (v : β)
    (hnd : (l.map Prod.fst).Nodup) (hmem : (k, v) ∈ l) :
    lookupA (l.foldl (fun a p => insertA a p.1 p.2) acc) k = some v := by
  induction l generalizing acc with
  | nil => cases hmem
  | cons p t ih =>
    obtain ⟨k', v'⟩ := p
    simp only [List.map_cons, List.nodup_cons] at hnd
    simp only [List.foldl_cons]
    rcases List.mem_cons.mp hmem with heq | htail
    · rw [Prod.mk.injEq] at heq
      obtain ⟨hk, hv⟩ := heq
      subst hk; subst hv
      rw [lookupA_foldl_insertA_not_mem _ _ _ hnd.1, lookupA_insertA_self]
    · exact ih _ hnd.2 htail

/-- Executing a workflow that is already in the in-memory map never loads:
it calls the bound entry function and wraps a raised exception. -/
theorem execute_loaded (st : RegistryState) (now wid : String)
    (inputs : Value) (lw : LoadedWorkflow)
    (hmem : lookupA st.workflows wid = some lw) :
    execute_workflow st now wid inputs =
      match lw.run_func inputs with
      | .ok v => (.ok v, st)
      | .error msg => (.error (.execError msg), st) := by
  unfold execute_workflow runLoaded
  rw [hmem]

/-- Specialization of `execute_loaded` to an entry function that returns. -/
theorem execute_loaded_ok (st : RegistryState) (now wid : String)
    (inputs : Value) (lw : LoadedWorkflow) (v : Value)
    (hmem : lookupA st.workflows wid = some lw)
    (hrun : lw.run_func inputs = .ok v) :
    execute_workflow st now wid inputs = (.ok v, st) := by
  rw [execute_loaded st now wid inputs lw hmem, hrun]

/-- Every metadata document the listing returns was read from disk for some
workflow id iterated from the in-memory map. -/
theorem listAll_mem_meta (fs : List (String × WorkflowDir))
    (ws : List (String × LoadedWorkflow)) :
    ∀ m ∈ (listAll fs ws).1,
      ∃ wid lw, (wid, lw) ∈ ws ∧ metaDoc fs wid = .valid m := by
  induction ws with
  | nil => intro m hm; cases hm
  | cons p t ih =>
    obtain ⟨wid, lw⟩ := p
    intro m hm
    cases hq : metaDoc fs wid <;> simp only [listAll, hq] at hm
    · obtain ⟨wid', lw', hmem, hmeta⟩ := ih m hm
      exact ⟨wid', lw', List.mem_cons_of_mem _ hmem, hmeta⟩
    · obtain ⟨wid', lw', hmem, hmeta⟩ := ih m hm
      exact ⟨wid', lw', List.mem_cons_of_mem _ hmem, hmeta⟩
    · rcases List.mem_cons.mp hm with heq | htail
      · subst heq
        exact ⟨wid, lw, List.mem_cons_self _ _, hq⟩
      · obtain ⟨wid', lw', hmem, hmeta⟩ := ih m htail
        exact ⟨wid', lw', List.mem_cons_of_mem _ hmem, hmeta⟩

/-- Every log call the listing makes is an error-level call about an iterated
workflow id whose metadata document exists but is unparsable; in particular no
warning is ever logged. -/
theorem listAll_log_only_errors (fs : List (String × WorkflowDir))
    (ws : List (String × LoadedWorkflow)) :
    ∀ e ∈ (listAll fs ws).2,
      e.1 = LogLevel.error ∧ metaDoc fs e.2 = .invalid ∧
      ∃ lw, (e.2, lw) ∈ ws := by
  induction ws with
  | nil => intro e he; cases he
  | cons p t ih =>
    obtain ⟨wid, lw⟩ := p
    intro e he
    cases hq : metaDoc fs wid <;> simp only [listAll, hq] at he
    · obtain ⟨h1, h2, lw', hmem⟩ := ih e he
      exact ⟨h1, h2, lw', List.mem_cons_of_mem _ hmem⟩
    · rcases List.mem_cons.mp he with heq | htail
      · subst heq
        exact ⟨rfl, hq, lw, List.mem_cons_self _ _⟩
      · obtain ⟨h1, h2, lw', hmem⟩ := ih e htail
        exact ⟨h1, h2, lw', List.mem_cons_of_mem _ hmem⟩
    · obtain ⟨h1, h2, lw', hmem⟩ := ih e he
      exact ⟨h1, h2, lw', List.mem_cons_of_mem _ hmem⟩

/-- An iterated workflow whose metadata document is unparsable does get an
error-level log call. -/
theorem listAll_invalid_logged (fs : List (String × WorkflowDir))
    (ws : List (String × LoadedWorkflow)) (wid : String)
    (lw : LoadedWorkflow) (hmem : (wid, lw) ∈ ws)
    (hinv : metaDoc fs wid = .invalid) :
    (LogLevel.error, wid) ∈ (listAll fs ws).2 := by
  induction ws with
  | nil => cases hmem
  | cons p t ih =>
    obtain ⟨wid', lw'⟩ := p
    rcases List.mem_cons.mp hmem with heq | htail
    · rw [Prod.mk.injEq] at heq
      obtain ⟨h1, h2⟩ := heq
      subst h1
      simp only [listAll, hinv]
      exact List.mem_cons_self _ _
    · have hrec := ih htail
      cases hq : metaDoc fs wid' <;> simp only [listAll, hq]
      · exact hrec
      · exact List.mem_cons_of_mem _ hrec
      · exact hrec

/-- An iterated workflow whose metadata document parses is listed, whatever
happens to the other iterated workflows. -/
theorem listAll_valid_listed (fs : List (String × WorkflowDir))
    (ws : List (String × LoadedWorkflow)) (wid : String)
    (lw : LoadedWorkflow) (m : Metadata) (hmem : (wid, lw) ∈ ws)
    (hval : metaDoc fs wid = .valid m) :
    m ∈ (listAll fs ws).1 := by
  induction ws with
  | nil => cases hmem
  | cons p t ih =>
    obtain ⟨wid', lw'⟩ := p
    rcases List.mem_cons.mp hmem with heq | htail
    · rw [Prod.mk.injEq] at heq
      obtain ⟨h1, h2⟩ := heq
      subst h1
      simp only [listAll, hval]
      exact List.mem_cons_self _ _
    · have hrec := ih htail
      cases hq : metaDoc fs wid' <;> simp only [listAll, hq]
      · exact hrec
      · exact hrec
      · exact List.mem_cons_of_mem _ hrec

/-- The execute handler's HTTP 500 branch is unreachable: whatever the
registry state and request, the endpoint answers 200 or 404, because the
service signals every failure as a ValueError and the handler's
except-ValueError clause catches them all first. -/
theorem executeEndpoint_no_500 (st : RegistryState) (now wid : String)
    (inputs : Value) (d : String) :
    (executeEndpoint st now wid inputs).1 ≠ .serverError d := by
  unfold executeEndpoint
  rcases hE : execute_workflow st now wid inputs with ⟨r, st1⟩
  cases r with
  | ok v => exact fun h => ExecHttpResponse.noConfusion h
  | error e => exact fun h => ExecHttpResponse.noConfusion h

/-- Claim C1, behavior of the code at the failing input: for the loaded
workflow w whose entry function raises with message boom, the execute
endpoint returns HTTP 404 with detail "Error executing workflow: boom".  The
service re-raises execution failures as ValueError, the same exception class
it uses for the not-found failure, so the handler's except-ValueError clause
maps both to 404 and its HTTP 500 clause never fires for an execution error;
the failure is thus not distinguishable from NotFound at the HTTP layer,
against the claim. -/
theorem C1_execution_error_surfaces_as_404 :
    (executeEndpoint stBoom "t1" "w" (.dict [])).1
      = .notFound "Error executing workflow: boom" := rfl

/-- Claim C2: for every workflow id absent from the in-memory map for which
the lazy load also fails, execute signals the not-found failure (a returned
error value of the embedding, never an unhandled fault) and the endpoint
answers HTTP 404 with the not-found detail. -/
theorem C2_unknown_workflow_not_found (st : RegistryState) (now wid : String)
    (inputs : Value)
    (hmem : lookupA st.workflows wid = none)
    (hload : (load_workflow st now wid).1 = false) :
    (execute_workflow st now wid inputs).1 = .error (.notFound wid) ∧
    (executeEndpoint st now wid inputs).1
      = .notFound ("Workflow not found: " ++ wid) := by
  rcases hq : load_workflow st now wid with ⟨b, st1⟩
  rw [hq] at hload
  have hb : b = false := hload
  subst hb
  have hEx : execute_workflow st now wid inputs
      = (.error (.notFound wid), st1) := by
    unfold execute_workflow
    simp only [hmem, hq]
  refine ⟨by rw [hEx], ?_⟩
  unfold executeEndpoint
  rw [hEx]
  rfl

/-- Concrete instance of C2: id w is not loaded and nothing is on disk. -/
theorem C2_unknown_workflow_not_found_witness :
    (execute_workflow stEmpty "t1" "w" .null).1 = .error (.notFound "w") ∧
    (executeEndpoint stEmpty "t1" "w" .null).1
      = .notFound ("Workflow not found: " ++ "w") :=
  C2_unknown_workflow_not_found stEmpty "t1" "w" .null rfl rfl

/-- Claim C3: a loaded workflow whose entry function returns a non-mapping
value v yields exactly the canonical envelope with the requested id, status
completed, empty node_results and result v. -/
theorem C3_bare_value_envelope (st : RegistryState) (now wid : String)
    (inputs : Value) (lw : LoadedWorkflow) (v : Value)
    (hmem : lookupA st.workflows wid = some lw)
    (hrun : lw.run_func inputs = .ok v)
    (hnd : v.isDict = false) :
    (executeEndpoint st now wid inputs).1
      = .ok (.dict [("workflow_id", .str wid), ("status", .str "completed"),
                    ("node_results", .list []), ("result", v)]) := by
  have hEx := execute_loaded_ok st now wid inputs lw v hmem hrun
  unfold executeEndpoint
  rw [hEx]
  cases v with
  | dict kvs => simp [Value.isDict] at hnd
  | null => rfl
  | bool b => rfl
  | int n => rfl
  | str s => rfl
  | list xs => rfl

/-- Concrete instance of C3: the loaded workflow w returns the integer 42. -/
theorem C3_bare_value_envelope_witness :
    (executeEndpoint stConst "t1" "w" .null).1
      = .ok (.dict [("workflow_id", .str "w"), ("status", .str "completed"),
                    ("node_results", .list []), ("result", .int 42)]) :=
  C3_bare_value_envelope stConst "t1" "w" .null wfConst42 (.int 42)
    rfl rfl rfl

/-- Claim C5: whenever load fails, for any of its failure reasons, it returns
false and the whole registry state — in particular the in-memory map and any
entry previously stored under the id — is left untouched. -/
theorem C5_load_failure_leaves_state (st : RegistryState) (now wid : String)
    (h : (load_workflow st now wid).1 = false) :
    load_workflow st now wid = (false, st) := by
  unfold load_workflow at h ⊢
  cases hf : lookupA st.fs wid with
  | none => simp only [hf]
  | some dir =>
    simp only [hf] at h ⊢
    cases he : dir.entry with
    | specNone => simp only [he]
    | raises msg => simp only [he]
    | noRunGraph => simp only [he]
    | ok f =>
      simp only [he] at h
      exact Bool.noConfusion h

/-- Concrete instance of C5: the directory for w exists but its module lacks
run_graph; the prior in-memory entry for w survives unchanged. -/
theorem C5_load_failure_leaves_state_witness :
    load_workflow stNoRun "t1" "w" = (false, stNoRun) :=
  C5_load_failure_leaves_state stNoRun "t1" "w" rfl

/-- Claim C6: when the directory for the id exists and its entry-point file
loads and exposes run_graph, load returns true, binds the entry function,
stamps loaded_at with the load time, and inserts the entry into the map,
overwriting any prior entry for the same id. -/
theorem C6_load_success_binds_entry (st : RegistryState) (now wid : String)
    (dir : WorkflowDir) (f : Value → Except String Value)
    (hdir : lookupA st.fs wid = some dir)
    (hentry : dir.entry = .ok f) :
    load_workflow st now wid =
      (true, { st with workflows := insertA st.workflows wid ⟨f, now⟩ }) ∧
    lookupA (load_workflow st now wid).2.workflows wid = some ⟨f, now⟩ := by
  have h1 : load_workflow st now wid =
      (true, { st with workflows := insertA st.workflows wid ⟨f, now⟩ }) := by
    unfold load_workflow
    simp only [hdir, hentry]
  exact ⟨h1, by rw [h1]; exact lookupA_insertA_self st.workflows wid ⟨f, now⟩⟩

/-- Concrete instance of C6: loading the loadable directory for w. -/
theorem C6_load_success_binds_entry_witness :
    load_workflow stOkDir "t1" "w" =
      (true, { stOkDir with
               workflows := insertA stOkDir.workflows "w" ⟨f42, "t1"⟩ }) ∧
    lookupA (load_workflow stOkDir "t1" "w").2.workflows "w"
      = some ⟨f42, "t1"⟩ :=
  C6_load_success_binds_entry stOkDir "t1" "w" dirOk f42 rfl rfl

/-- Claim C4: a loaded workflow whose entry function returns a mapping yields
that mapping with workflow_id set to the requested id, node_results defaulted
to the empty list when absent and kept when present, and every other
key-value pair preserved unchanged. -/
theorem C4_dict_result_normalized (st : RegistryState) (now wid : String)
    (inputs : Value) (lw : LoadedWorkflow) (kvs : List (String × Value))
    (hmem : lookupA st.workflows wid = some lw)
    (hrun : lw.run_func inputs = .ok (.dict kvs)) :
    ∃ kvs2, (executeEndpoint st now wid inputs).1 = .ok (.dict kvs2) ∧
      lookupA kvs2 "workflow_id" = some (.str wid) ∧
      (lookupA kvs "node_results" = none →
        lookupA kvs2 "node_results" = some (.list [])) ∧
      (∀ v, lookupA kvs "node_results" = some v →
        lookupA kvs2 "node_results" = some v) ∧
      (∀ k, k ≠ "workflow_id" → k ≠ "node_results" →
        lookupA kvs2 k = lookupA kvs k) := by
  have hEx := execute_loaded_ok st now wid inputs lw (.dict kvs) hmem hrun
  have hnw : ("node_results" : String) ≠ "workflow_id" := by decide
  have hwn : ("workflow_id" : String) ≠ "node_results" := by decide
  have h1 : lookupA (insertA kvs "workflow_id" (.str wid)) "node_results"
      = lookupA kvs "node_results" :=
    lookupA_insertA_ne kvs "workflow_id" "node_results" _ hnw
  have hend : (executeEndpoint st now wid inputs).1
      = .ok (normalizeOk wid (.dict kvs)) := by
    unfold executeEndpoint
    rw [hEx]
  cases hq : lookupA kvs "node_results" with
  | none =>
    have h2 : lookupA (insertA kvs "workflow_id" (Value.str wid))
        "node_results" = none := h1.trans hq
    have hnorm : normalizeOk wid (.dict kvs)
        = .dict (insertA (insertA kvs "workflow_id" (.str wid))
            "node_results" (.list [])) := by
      simp only [normalizeOk, h2]
    rw [hnorm] at hend
    refine ⟨_, hend, ?_, fun _ => ?_, fun v hv => ?_, fun k hk1 hk2 => ?_⟩
    · rw [lookupA_insertA_ne _ _ _ _ hwn]
      exact lookupA_insertA_self kvs "workflow_id" (Value.str wid)
    · exact lookupA_insertA_self _ "node_results" (Value.list [])
    · exact Option.noConfusion hv
    · rw [lookupA_insertA_ne _ _ _ _ hk2, lookupA_insertA_ne _ _ _ _ hk1]
  | some v0 =>
    have h2 : lookupA (insertA kvs "workflow_id" (Value.str wid))
        "node_results" = some v0 := h1.trans hq
    have hnorm : normalizeOk wid (.dict kvs)
        = .dict (insertA kvs "workflow_id" (.str wid)) := by
      simp only [normalizeOk, h2]
    rw [hnorm] at hend
    refine ⟨_, hend, ?_, fun h0 => ?_, fun v hv => ?_, fun k hk1 hk2 => ?_⟩
    · exact lookupA_insertA_self kvs "workflow_id" (Value.str wid)
    · exact Option.noConfusion h0
    · rw [h1, hq]
      exact hv
    · exact lookupA_insertA_ne _ _ _ _ hk1

/-- Concrete instance of C4: the loaded workflow w returns the mapping
containing only status done; the id and the node_results default are
injected and the status pair is preserved. -/
theorem C4_dict_result_normalized_witness :
    ∃ kvs2, (executeEndpoint stDone "t1" "w" .null).1 = .ok (.dict kvs2) ∧
      lookupA kvs2 "workflow_id" = some (.str "w") ∧
      (lookupA [("status", Value.str "done")] "node_results" = none →
        lookupA kvs2 "node_results" = some (.list [])) ∧
      (∀ v, lookupA [("status", Value.str "done")] "node_results" = some v →
        lookupA kvs2 "node_results" = some v) ∧
      (∀ k, k ≠ "workflow_id" → k ≠ "node_results" →
        lookupA kvs2 k = lookupA [("status", Value.str "done")] k) :=
  C4_dict_result_normalized stDone "t1" "w" .null wfDone
    [("status", .str "done")] rfl rfl

/-- Claim C7 (amended): list_all iterates only the ids in the in-memory map
and reads every listed metadata document fresh from disk; an iterated id
whose document is missing is skipped silently (no log call at all), an
iterated id whose document is unparsable is skipped with an error-level log
call, and every iterated id whose document parses is still listed, so one
broken document never fails the whole listing. -/
theorem C7_listing_semantics (st : RegistryState) :
    (∀ m, m ∈ (get_all_workflows st).1 →
      ∃ wid lw, (wid, lw) ∈ st.workflows ∧ metaDoc st.fs wid = .valid m) ∧
    (∀ e, e ∈ (get_all_workflows st).2 →
      e.1 = LogLevel.error ∧ metaDoc st.fs e.2 = .invalid ∧
      ∃ lw, (e.2, lw) ∈ st.workflows) ∧
    (∀ wid lw, (wid, lw) ∈ st.workflows → metaDoc st.fs wid = .invalid →
      (LogLevel.error, wid) ∈ (get_all_workflows st).2) ∧
    (∀ wid lw m, (wid, lw) ∈ st.workflows → metaDoc st.fs wid = .valid m →
      m ∈ (get_all_workflows st).1) :=
  ⟨listAll_mem_meta st.fs st.workflows,
   listAll_log_only_errors st.fs st.workflows,
   fun wid lw hm hi => listAll_invalid_logged st.fs st.workflows wid lw hm hi,
   fun wid lw m hm hv => listAll_valid_listed st.fs st.workflows wid lw m hm hv⟩

/-- Concrete instance of the amended C7 on a state with a valid, an
unparsable and a missing metadata document side by side. -/
theorem C7_listing_semantics_witness :
    ((LogLevel.error, "b") ∈ (get_all_workflows stListing).2) ∧
    (mA ∈ (get_all_workflows stListing).1) :=
  ⟨(C7_listing_semantics stListing).2.2.1 "b" wfDone
      (List.mem_cons_of_mem _ (List.mem_cons_self _ _)) rfl,
   (C7_listing_semantics stListing).2.2.2 "a" wfConst42 mA
      (List.mem_cons_self _ _) rfl⟩

/-- Claim C7 as frozen is false on the code: in `stNoMeta` the id a is in the
in-memory map while its metadata document is missing, and the listing skips
it with no log call at all, not with a logged warning; in `stBadMeta` the
document of a is unparsable and the listing logs at error level, again not a
warning. -/
theorem C7_counterexample :
    (lookupA stNoMeta.workflows "a").isSome = true ∧
    metaDoc stNoMeta.fs "a" = .absent ∧
    get_all_workflows stNoMeta = ([], []) ∧
    metaDoc stBadMeta.fs "a" = .invalid ∧
    get_all_workflows stBadMeta = ([], [(LogLevel.error, "a")]) :=
  ⟨rfl, rfl, rfl, rfl, rfl⟩

/-- Claim C8: after a successful delete the metadata of the id is absent, and
deleting an id whose directory does not exist returns false without raising
and leaves the state unchanged. -/
theorem C8_delete_semantics (st : RegistryState) (wid : String) :
    ((delete_workflow st wid).1 = true →
      get_workflow_metadata (delete_workflow st wid).2 wid = none) ∧
    (lookupA st.fs wid = none → delete_workflow st wid = (false, st)) := by
  cases hf : lookupA st.fs wid with
  | none =>
    refine ⟨fun h => ?_, fun _ => ?_⟩
    · unfold delete_workflow at h
      rw [hf] at h
      exact Bool.noConfusion h
    · unfold delete_workflow
      rw [hf]
  | some dir =>
    have hdel : delete_workflow st wid =
        (true, { st with workflows := eraseA st.workflows wid,
                         fs := eraseA st.fs wid }) := by
      unfold delete_workflow
      simp only [hf]
    refine ⟨fun _ => ?_, fun h0 => ?_⟩
    · rw [hdel]
      unfold get_workflow_metadata metaDoc
      simp only [lookupA_eraseA_self]
    · exact Option.noConfusion h0

/-- Concrete instance of C8: deleting a (present on disk) then reading its
metadata yields nothing; deleting b (absent) fails and changes nothing. -/
theorem C8_delete_semantics_witness :
    get_workflow_metadata (delete_workflow stMetaA "a").2 "a" = none ∧
    delete_workflow stEmpty "b" = (false, stEmpty) :=
  ⟨(C8_delete_semantics stMetaA "a").1 rfl,
   (C8_delete_semantics stEmpty "b").2 rfl⟩

/-- Claim C9: when the load that ends registration fails, register signals
failure, yet the directory stays on disk with the written code files, the
package marker and the metadata document, so get_metadata still returns the
persisted metadata. -/
theorem C9_register_no_rollback (st : RegistryState) (now wid nm : String)
    (code_files : List (String × String)) (sem : LoadOutcome)
    (hfail : ∀ f, sem ≠ LoadOutcome.ok f) :
    (register_workflow st now wid nm code_files sem).1 = false ∧
    lookupA (register_workflow st now wid nm code_files sem).2.fs wid
      = some (writtenDir st now wid nm code_files sem) ∧
    (writtenDir st now wid nm code_files sem).meta = .valid ⟨wid, nm, now⟩ ∧
    (writtenDir st now wid nm code_files sem).hasInit = true ∧
    ((code_files.map Prod.fst).Nodup → ∀ fn c, (fn, c) ∈ code_files →
      lookupA (writtenDir st now wid nm code_files sem).files fn = some c) ∧
    get_workflow_metadata
      (register_workflow st now wid nm code_files sem).2 wid
      = some ⟨wid, nm, now⟩ := by
  have hentry : (writtenDir st now wid nm code_files sem).entry = sem := rfl
  have hmeta : (writtenDir st now wid nm code_files sem).meta
      = .valid ⟨wid, nm, now⟩ := rfl
  have hlook : lookupA
      (insertA st.fs wid (writtenDir st now wid nm code_files sem)) wid
      = some (writtenDir st now wid nm code_files sem) :=
    lookupA_insertA_self _ _ _
  have hreg : register_workflow st now wid nm code_files sem =
      (false, { st with
        fs := insertA st.fs wid (writtenDir st now wid nm code_files sem) }) := by
    unfold register_workflow load_workflow
    simp only [hlook, hentry]
    cases sem with
    | specNone => rfl
    | raises msg => rfl
    | noRunGraph => rfl
    | ok f => exact absurd rfl (hfail f)
  refine ⟨by rw [hreg], ?_, hmeta, rfl, fun hnd fn c hmemf => ?_, ?_⟩
  · rw [hreg]
    exact hlook
  · exact lookupA_foldl_insertA_mem code_files _ fn c hnd hmemf
  · rw [hreg]
    unfold get_workflow_metadata metaDoc
    simp only [hlook, hmeta]

/-- Concrete instance of C9: registering w with one code file whose module
lacks run_graph fails, yet the metadata written during the attempt is still
readable. -/
theorem C9_register_no_rollback_witness :
    (register_workflow stEmpty "t1" "w" "W" [("main.py", "x = 1")]
        .noRunGraph).1 = false ∧
    get_workflow_metadata
      (register_workflow stEmpty "t1" "w" "W" [("main.py", "x = 1")]
          .noRunGraph).2 "w" = some ⟨"w", "W", "t1"⟩ := by
  obtain ⟨h1, h2, h3, h4, h5, h6⟩ :=
    C9_register_no_rollback stEmpty "t1" "w" "W" [("main.py", "x = 1")]
      .noRunGraph (fun f h => LoadOutcome.noConfusion h)
  exact ⟨h1, h6⟩

/-- Claim C10: an id present in the in-memory map whose directory is gone
from disk cannot be deleted — delete returns false before touching the map,
leaving the whole state unchanged — while the stale entry remains executable
through the map. -/
theorem C10_stale_entry_undeletable (st : RegistryState) (now wid : String)
    (inputs : Value) (lw : LoadedWorkflow)
    (hmem : lookupA st.workflows wid = some lw)
    (hdir : lookupA st.fs wid = none) :
    delete_workflow st wid = (false, st) ∧
    (∀ v, lw.run_func inputs = .ok v →
      (execute_workflow st now wid inputs).1 = .ok v) := by
  refine ⟨?_, fun v hv => ?_⟩
  · unfold delete_workflow
    simp only [hdir]
  · rw [execute_loaded_ok st now wid inputs lw v hmem hv]

/-- Concrete instance of C10: w is loaded in memory, nothing is on disk;
delete fails and leaves the state alone while execute still returns 42. -/
theorem C10_stale_entry_undeletable_witness :
    delete_workflow stConst "w" = (false, stConst) ∧
    (execute_workflow stConst "t1" "w" .null).1 = .ok (.int 42) := by
  obtain ⟨h1, h2⟩ :=
    C10_stale_entry_undeletable stConst "t1" "w" .null wfConst42 rfl rfl
  exact ⟨h1, h2 (.int 42) rfl⟩

end TemplateApi
